import Mathlib

/-
Verification of the witchery library (src/witchery/__init__.py): a shallow
embedding of the Python AST fragment the library manipulates, of its
variable-flow collectors and of its tree rewriters, with theorems settling
the specification claims.

Source code is text that is parsed into an AST by `ast.parse` and rendered
back by `ast.unparse`; both are external capabilities of the host language
(spec section 6), so the embedding works directly on the AST: a snippet is a
`List Stmt` (the body of an `ast.Module`).
-/

namespace Witchery

set_option maxRecDepth 100000

/-- Context of a name reference: `ast.Load`, `ast.Store` or `ast.Del`. -/
inductive Ctx where
  | load
  | store
  | del
deriving DecidableEq

/-- An `ast.alias` as appearing in import statements: `name [as asname]`. -/
structure Alias where
  name : String
  asname : Option String
deriving DecidableEq

mutual
/-- Expressions of the Python AST fragment the library manipulates.
`ast.Load`/`ast.Store`/`ast.Del` context markers are child AST nodes in
CPython, but every collector of the library ignores them as nodes, so they
are kept as plain fields here. -/
inductive Expr where
  | name (id : String) (ctx : Ctx)
  | intConst (value : Nat)
  | strConst (value : String)
  | boolConst (value : Bool)
  | tuple (elts : List Expr) (ctx : Ctx)
  | subscript (value : Expr) (slice : Expr) (ctx : Ctx)
  | attribute (value : Expr) (attr : String) (ctx : Ctx)
  | call (func : Expr) (args : List Expr) (keywords : List Keyword)
  | yieldExpr (value : Option Expr)
deriving BEq

/-- An `ast.keyword` node of a call: `arg=value`. -/
inductive Keyword where
  | mk (arg : String) (value : Expr)
deriving BEq
end

mutual
/-- Statements of the Python AST fragment the library manipulates.
`FunctionDef` keeps its parameter names as strings: in CPython they are
`ast.arg` nodes, which none of the library collectors inspect (they are not
`ast.Name` nodes). Decorators, type comments and docstring-only details not
inspected by the library are elided. -/
inductive Stmt where
  | assign (targets : List Expr) (value : Expr)
  | annAssign (target : Expr) (targetType : Expr) (value : Option Expr)
  | exprStmt (value : Expr)
  | ret (value : Option Expr)
  | delete (targets : List Expr)
  | importStmt (names : List Alias)
  | importFrom (module : Option String) (names : List Alias) (level : Nat)
  | forStmt (target : Expr) (iter : Expr) (body : List Stmt) (orelse : List Stmt)
  | ifStmt (test : Expr) (body : List Stmt) (orelse : List Stmt)
  | functionDef (name : String) (params : List String) (body : List Stmt)
  | classDef (name : String) (body : List Stmt)
  | passStmt
deriving BEq
end

/-- A node of the tree, as handed to a visitor callback: either a statement
or an expression. CPython also hands `ast.alias`, `ast.arg` and context
marker objects to the callback, but every collector of the library treats
those as no-ops, so they are elided from the node sequence. -/
inductive Node where
  | stmt (s : Stmt)
  | expr (e : Expr)

mutual
/-- Pre-order node sequence of an expression subtree, in `ast.iter_child_nodes`
field order: the node itself first, then every child subtree in turn. This
mirrors the visit order of `traverse_ast(node, collector)` restricted to the
node kinds the collectors inspect. -/
def exprNodes : Expr → List Node
  | .name id c => [.expr (.name id c)]
  | .intConst v => [.expr (.intConst v)]
  | .strConst v => [.expr (.strConst v)]
  | .boolConst v => [.expr (.boolConst v)]
  | .tuple elts c => .expr (.tuple elts c) :: exprListNodes elts
  | .subscript v s c => .expr (.subscript v s c) :: (exprNodes v ++ exprNodes s)
  | .attribute v a c => .expr (.attribute v a c) :: exprNodes v
  | .call f args ks => .expr (.call f args ks) :: (exprNodes f ++ exprListNodes args ++ keywordListNodes ks)
  | .yieldExpr none => [.expr (.yieldExpr none)]
  | .yieldExpr (some v) => .expr (.yieldExpr (some v)) :: exprNodes v

/-- Node sequences of a list of sibling expressions, concatenated in order. -/
def exprListNodes : List Expr → List Node
  | [] => []
  | e :: rest => exprNodes e ++ exprListNodes rest

/-- Node sequences of the value expressions of `ast.keyword` children. -/
def keywordListNodes : List Keyword → List Node
  | [] => []
  | .mk _ v :: rest => exprNodes v ++ keywordListNodes rest
end

/-- Node sequence of an optional expression child. -/
def optExprNodes : Option Expr → List Node
  | none => []
  | some e => exprNodes e

mutual
/-- Pre-order node sequence of a statement subtree, in `ast.iter_child_nodes`
field order. -/
def stmtNodes : Stmt → List Node
  | .assign ts v => .stmt (.assign ts v) :: (exprListNodes ts ++ exprNodes v)
  | .annAssign t ann v => .stmt (.annAssign t ann v) :: (exprNodes t ++ exprNodes ann ++ optExprNodes v)
  | .exprStmt v => .stmt (.exprStmt v) :: exprNodes v
  | .ret v => .stmt (.ret v) :: optExprNodes v
  | .delete ts => .stmt (.delete ts) :: exprListNodes ts
  | .importStmt names => [.stmt (.importStmt names)]
  | .importFrom m names lvl => [.stmt (.importFrom m names lvl)]
  | .forStmt t it b o =>
      .stmt (.forStmt t it b o) :: (exprNodes t ++ exprNodes it ++ stmtListNodes b ++ stmtListNodes o)
  | .ifStmt t b o => .stmt (.ifStmt t b o) :: (exprNodes t ++ stmtListNodes b ++ stmtListNodes o)
  | .functionDef n ps b => .stmt (.functionDef n ps b) :: stmtListNodes b
  | .classDef n b => .stmt (.classDef n b) :: stmtListNodes b
  | .passStmt => [.stmt .passStmt]

/-- Node sequences of a list of sibling statements, concatenated in order. -/
def stmtListNodes : List Stmt → List Node
  | [] => []
  | s :: rest => stmtNodes s ++ stmtListNodes rest
end

/-- Embedding of `traverse_ast(node, variable_collector)`: the collector is
applied to a node and then, depth-first pre-order, to every node of every
child subtree. A stateful collector applied along that visit sequence is a
left fold over the sequence. The `ast.Module` root node and the `ast.alias`,
`ast.arg` and context-marker children are no-ops for every collector in the
library and are elided from the sequence. -/
def traverse_ast {σ : Type} (variable_collector : σ → Node → σ) (init : σ) (body : List Stmt) : σ :=
  (stmtListNodes body).foldl variable_collector init

/-- Snapshot of `builtins.__dict__.keys()` of the host CPython interpreter,
the module-level constant `BUILTINS` of the library. -/
def builtinNames : List String :=
  ["abs", "aiter", "all", "anext", "any", "ascii", "bin", "bool", "breakpoint",
   "bytearray", "bytes", "callable", "chr", "classmethod", "compile", "complex",
   "copyright", "credits", "delattr", "dict", "dir", "divmod", "enumerate",
   "eval", "exec", "exit", "filter", "float", "format", "frozenset", "getattr",
   "globals", "hasattr", "hash", "help", "hex", "id", "input", "int",
   "isinstance", "issubclass", "iter", "len", "license", "list", "locals",
   "map", "max", "memoryview", "min", "next", "object", "oct", "open", "ord",
   "pow", "print", "property", "quit", "range", "repr", "reversed", "round",
   "set", "setattr", "slice", "sorted", "staticmethod", "str", "sum", "super",
   "tuple", "type", "vars", "zip", "True", "False", "None", "NotImplemented",
   "Ellipsis", "__debug__", "__doc__", "__import__", "__loader__", "__name__",
   "__package__", "__spec__", "__build_class__",
   "ArithmeticError", "AssertionError", "AttributeError", "BaseException",
   "BaseExceptionGroup", "BlockingIOError", "BrokenPipeError", "BufferError",
   "BytesWarning", "ChildProcessError", "ConnectionAbortedError",
   "ConnectionError", "ConnectionRefusedError", "ConnectionResetError",
   "DeprecationWarning", "EOFError", "EncodingWarning", "EnvironmentError",
   "Exception", "ExceptionGroup", "FileExistsError", "FileNotFoundError",
   "FloatingPointError", "FutureWarning", "GeneratorExit", "IOError",
   "ImportError", "ImportWarning", "IndentationError", "IndexError",
   "InterruptedError", "IsADirectoryError", "KeyError", "KeyboardInterrupt",
   "LookupError", "MemoryError", "ModuleNotFoundError", "NameError",
   "NotADirectoryError", "NotImplementedError", "OSError", "OverflowError",
   "PendingDeprecationWarning", "PermissionError", "ProcessLookupError",
   "RecursionError", "ReferenceError", "ResourceWarning", "RuntimeError",
   "RuntimeWarning", "StopAsyncIteration", "StopIteration", "SyntaxError",
   "SyntaxWarning", "SystemError", "SystemExit", "TabError", "TimeoutError",
   "TypeError", "UnboundLocalError", "UnicodeDecodeError",
   "UnicodeEncodeError", "UnicodeError", "UnicodeTranslateError",
   "UnicodeWarning", "UserWarning", "ValueError", "Warning",
   "ZeroDivisionError"]

/-- The builtin-name snapshot holds each name once. -/
theorem builtinNames_nodup : builtinNames.Nodup := by decide

/-- The process-wide set `BUILTINS = set(builtins.__dict__.keys())`. -/
def BUILTINS : Finset String := ⟨builtinNames, builtinNames_nodup⟩

mutual
/-- Embedding of the nested `handle_elts` of `collect_definitions`, which is
textually identical in `find_defined_variables` and in `find_variables`: it
walks a list of assignment-target expressions in order, and for each element
unwraps a subscript target to its base value, recurses through a tuple
target, and adds the identifier of any node carrying an `id` attribute (a
plain name) to the accumulated set. -/
def handle_elts : List Expr → Finset String → Finset String
  | [], varSet => varSet
  | e :: rest, varSet => handle_elts rest (handleElt e varSet)

/-- One element of `handle_elts`: the `node = node.value` subscript unwrap
followed by the tuple recursion and the `getattr(node, "id", None)` check,
written as a single case split over the two-level shape. Only `ast.Name`
nodes carry an `id` attribute. -/
def handleElt : Expr → Finset String → Finset String
  | .subscript (.tuple elts _) _ _, varSet => handle_elts elts varSet
  | .subscript (.name id _) _ _, varSet => insert id varSet
  | .subscript _ _ _, varSet => varSet
  | .tuple elts _, varSet => handle_elts elts varSet
  | .name id _, varSet => insert id varSet
  | _, varSet => varSet
end

/-- The five accumulator sets of `find_variables`, with the source's names.
`imported_modules` is initialised and used in the final union by the source
but never written to, and remains empty here as well. -/
structure VarState where
  used_variables : Finset String
  defined_variables : Finset String
  imported_modules : Finset String
  imported_names : Finset String
  loop_variables : Finset String

/-- Host import environment used by `collect_imports`: composition of
`importlib.import_module` and `dir`, yielding `none` when the import raises
`ImportError` (suppressed by the source) and otherwise the attribute names of
the imported module. -/
def ImportEnv : Type := String → Option (List String)

/-- An environment in which no module is importable: every `ImportError` is
suppressed and wildcard expansion contributes nothing. -/
def noImports : ImportEnv := fun _ => none

/-- Embedding of `collect_variables`: collect or remove variables based on
load, store and delete contexts of `ast.Name` nodes. -/
def collect_variables (st : VarState) : Node → VarState
  | .expr (.name id .load) => { st with used_variables := insert id st.used_variables }
  | .expr (.name id .store) => { st with defined_variables := insert id st.defined_variables }
  | .expr (.name id .del) => { st with defined_variables := st.defined_variables.erase id }
  | _ => st

/-- Embedding of `collect_definitions` of `find_variables`: on an `Assign` or
`AnnAssign` node, run `handle_elts` over `node.targets` (or `[node.target]`)
into the defined-variables set. -/
def collect_definitions (st : VarState) : Node → VarState
  | .stmt (.assign targets _) =>
      { st with defined_variables := handle_elts targets st.defined_variables }
  | .stmt (.annAssign target _ _) =>
      { st with defined_variables := handle_elts [target] st.defined_variables }
  | _ => st

/-- The `name.startswith("_")` test of the wildcard expansion, written on the
character list so that it evaluates by plain reduction. -/
def startsWithUnderscore (nm : String) : Bool :=
  match nm.toList with
  | [] => false
  | c :: _ => c == '_'

/-- Embedding of `collect_imports`: a plain `Import` adds each alias's `name`
(not its `asname`); a `from module import ...` whose module resolves in the
host environment adds the module's public attribute names for a wildcard
form and `asname or name` of each alias otherwise; an unresolvable module
contributes nothing, the `ImportError` being suppressed. -/
def collect_imports (env : ImportEnv) (st : VarState) : Node → VarState
  | .stmt (.importStmt names) =>
      { st with imported_names := names.foldl (fun s a => insert a.name s) st.imported_names }
  | .stmt (.importFrom (some module_name) names _) =>
      match env module_name with
      | none => st
      | some dirNames =>
          match names with
          | [] => st
          | a :: _ =>
              if a.name = "*" then
                let public_names := dirNames.filter (fun nm => !startsWithUnderscore nm)
                { st with imported_names := public_names.foldl (fun s nm => insert nm s) st.imported_names }
              else
                { st with imported_names := names.foldl (fun s al => insert (al.asname.getD al.name) s) st.imported_names }
  | _ => st

/-- Embedding of `collect_imported_names`: every `from module import ...`
with a module adds `asname or name` of each alias whether or not the module
is importable (for a wildcard import this adds the literal name of the star
alias). -/
def collect_imported_names (st : VarState) : Node → VarState
  | .stmt (.importFrom (some _) names _) =>
      { st with imported_names := names.foldl (fun s a => insert (a.asname.getD a.name) s) st.imported_names }
  | _ => st

/-- Embedding of `collect_loop_variables`: a `for` statement whose target is
a single plain name adds that name. -/
def collect_loop_variables (st : VarState) : Node → VarState
  | .stmt (.forStmt (.name id _) _ _ _) => { st with loop_variables := insert id st.loop_variables }
  | _ => st

/-- Embedding of `collect_everything`: the five collectors applied at each
node in the source's order. -/
def collect_everything (env : ImportEnv) (st : VarState) (node : Node) : VarState :=
  collect_loop_variables
    (collect_imports env (collect_imported_names (collect_definitions (collect_variables st node) node) node) node)
    node

/-- The empty initial collector state. -/
def initialVarState : VarState := ⟨∅, ∅, ∅, ∅, ∅⟩

/-- Embedding of `find_variables(code_str, with_builtins)`: runs
`collect_everything` over the tree and returns the used set together with
the union of the defined, imported-module, loop, imported-name and
(optionally) builtin sets. The `textwrap.dedent` preprocessing and the
possible `SyntaxError` of `ast.parse` are text-level concerns of the
external parser and do not appear at the AST level. -/
def find_variables (env : ImportEnv) (body : List Stmt) (with_builtins : Bool) :
    Finset String × Finset String :=
  let st := traverse_ast (collect_everything env) initialVarState body
  (st.used_variables,
    st.defined_variables ∪ st.imported_modules ∪ st.loop_variables ∪ st.imported_names ∪
      (if with_builtins then BUILTINS else ∅))

/-- The collector of `find_defined_variables`: only direct and annotated
assignments are inspected, through the same `handle_elts`. -/
def collect_definitions_only (varSet : Finset String) : Node → Finset String
  | .stmt (.assign targets _) => handle_elts targets varSet
  | .stmt (.annAssign target _ _) => handle_elts [target] varSet
  | _ => varSet

/-- Embedding of `find_defined_variables(code_str)`: the narrow
definition-only pass. -/
def find_defined_variables (body : List Stmt) : Finset String :=
  traverse_ast collect_definitions_only ∅ body

/-- Embedding of `find_missing_variables(code)`: calls `find_variables` with
its defaults (builtins included) and keeps every used variable not in the
defined set. -/
def find_missing_variables (env : ImportEnv) (body : List Stmt) : Finset String :=
  let p := find_variables env body true
  p.1.filter (fun var => var ∉ p.2)

/-- The placeholder type `Empty` of the library: the class that does
absolutely nothing. Its behaviour lives in its method embeddings; the
Python object carries no state. -/
structure Empty where

/-- Embedding of `Empty.__add__(self, other)`: overloads `+` so that
`empty + other` returns `other`, for a right-hand operand of any type. -/
def Empty.__add__ {T : Type _} (_self : Empty) (other : T) : T :=
  other

/-- The class statement of `inspect.getsource(Empty)` as parsed. Method
docstrings are abbreviated string constants and the parameter and return
annotations are elided: neither contains nodes any collector adds to a
defined set. -/
def emptyClassSource : Stmt :=
  .classDef "Empty"
    [ .functionDef "__init__" ["self", "_", "__"] [.exprStmt (.strConst "Can be passed any vars.")],
      .functionDef "__bool__" ["self"] [.ret (some (.boolConst false))],
      .functionDef "__getattribute__" ["self", "_"] [.ret (some (.name "self" .load))],
      .functionDef "__getitem__" ["self", "_"] [.ret (some (.name "self" .load))],
      .functionDef "__iter__" ["self"] [.exprStmt (.yieldExpr (some (.name "self" .load)))],
      .functionDef "__get__" ["self", "_"] [.ret (some (.name "self" .load))],
      .functionDef "__call__" ["self", "_", "__"] [.ret (some (.name "self" .load))],
      .functionDef "__str__" ["self"] [.ret (some (.strConst ""))],
      .functionDef "__repr__" ["self"] [.ret (some (.strConst ""))],
      .functionDef "__add__" ["self", "other"] [.ret (some (.name "other" .load))] ]

/-- The fixed leading part of the fragment `generate_magic_code` emits, as
parsed: the typing imports, the `T = typing.TypeVar('T', bound=Any)`
assignment, the source of the `Empty` class, and `empty = Empty()`. -/
def magicPrelude : List Stmt :=
  [ .importStmt [⟨"typing", none⟩],
    .importFrom (some "typing") [⟨"Any", none⟩] 0,
    .importFrom (some "typing_extensions") [⟨"Self", none⟩] 0,
    .assign [.name "T" .store]
      (.call (.attribute (.name "typing" .load) "TypeVar" .load) [.strConst "T"] [.mk "bound" (.name "Any" .load)]),
    emptyClassSource,
    .assign [.name "empty" .store] (.call (.name "Empty" .load) [] []) ]

/-- Embedding of `generate_magic_code(missing_vars)` as the parse of the
emitted fragment: the prelude followed by one assignment `name = empty` per
missing name. Python iterates the set `missing_vars` in an unspecified
order; the embedding takes the names as a list in iteration order. -/
def generate_magic_code (missing_vars : List String) : List Stmt :=
  magicPrelude ++ missing_vars.map (fun v => .assign [.name v .store] (.name "empty" .load))

/-- Embedding of `should_remove` of `remove_specific_variables`. -/
def should_remove (to_remove : List String) (var_name : String) : Bool :=
  to_remove.contains var_name

/-- The outright-removal test of `remove_desired_variable_refs`: a direct
assignment one of whose targets is a plain name in the removal set, or a
function or class definition whose name is in it, is answered with `None`. -/
def removesOutright (to_remove : List String) : Stmt → Bool
  | .assign targets _ =>
      targets.any (fun t =>
        match t with
        | .name id _ => should_remove to_remove id
        | _ => false)
  | .functionDef n _ _ => should_remove to_remove n
  | .classDef n _ => should_remove to_remove n
  | _ => false

/-- Python `list.remove`: drops the first occurrence of the element, raising
`ValueError` when it is absent. CPython compares AST nodes by object
identity; on the trees this development manipulates, structural equality is
used in its place. -/
def listRemove (a : Stmt) : List Stmt → Except Unit (List Stmt)
  | [] => .error ()
  | x :: rest =>
      if x == a then .ok rest
      else
        match listRemove a rest with
        | .error e => .error e
        | .ok rest1 => .ok (x :: rest1)

mutual
/-- Embedding of `remove_desired_variable_refs` on one statement: `none`
means the statement is removed outright (before any recursion); otherwise
the children are processed in `iter_child_nodes` order, a removed child
being deleted from the node's `body` list. A removable child encountered in
an `orelse` list is — exactly as in the source — removed from the `body`
list instead (the `ValueError` of `list.remove` when no equal statement is
there), while staying in `orelse` itself. -/
def remove_desired_variable_refs (to_remove : List String) (s : Stmt) : Except Unit (Option Stmt) :=
  if removesOutright to_remove s then .ok none
  else
    match s with
    | .forStmt t it b o =>
        match processBody to_remove b with
        | .error e => .error e
        | .ok b1 =>
            match processOrelse to_remove b1 o with
            | .error e => .error e
            | .ok (b2, o1) => .ok (some (.forStmt t it b2 o1))
    | .ifStmt t b o =>
        match processBody to_remove b with
        | .error e => .error e
        | .ok b1 =>
            match processOrelse to_remove b1 o with
            | .error e => .error e
            | .ok (b2, o1) => .ok (some (.ifStmt t b2 o1))
    | .functionDef n ps b =>
        match processBody to_remove b with
        | .error e => .error e
        | .ok b1 => .ok (some (.functionDef n ps b1))
    | .classDef n b =>
        match processBody to_remove b with
        | .error e => .error e
        | .ok b1 => .ok (some (.classDef n b1))
    | s => .ok (some s)

/-- The removal pass over a `body` statement list: children are processed in
order and dropped when `remove_desired_variable_refs` answers `None`. -/
def processBody (to_remove : List String) : List Stmt → Except Unit (List Stmt)
  | [] => .ok []
  | c :: rest =>
      match remove_desired_variable_refs to_remove c with
      | .error e => .error e
      | .ok none => processBody to_remove rest
      | .ok (some c1) =>
          match processBody to_remove rest with
          | .error e => .error e
          | .ok rest1 => .ok (c1 :: rest1)

/-- The pass over an `orelse` statement list, carrying the sibling `body`
list: a removable child triggers `node.body.remove(child)` on the body and
stays in `orelse`; every other child is rebuilt in place. -/
def processOrelse (to_remove : List String) (body : List Stmt) :
    List Stmt → Except Unit (List Stmt × List Stmt)
  | [] => .ok (body, [])
  | c :: rest =>
      match remove_desired_variable_refs to_remove c with
      | .error e => .error e
      | .ok none =>
          match listRemove c body with
          | .error e => .error e
          | .ok body1 =>
              match processOrelse to_remove body1 rest with
              | .error e => .error e
              | .ok (body2, rest1) => .ok (body2, c :: rest1)
      | .ok (some c1) =>
          match processOrelse to_remove body rest with
          | .error e => .error e
          | .ok (body2, rest1) => .ok (body2, c1 :: rest1)
end

/-- Embedding of `remove_specific_variables(code, to_remove)` (the source
default for `to_remove` is `("db", "database")`): the module node is never
itself removable, so the pass is the body pass; `ast.unparse` of the
resulting tree is the external render step. -/
def remove_specific_variables (body : List Stmt) (to_remove : List String) : Except Unit (List Stmt) :=
  processBody to_remove body

/-- Does the code reference the given identifier: an `ast.Name` node with
that id occurs somewhere in the tree. -/
def mentionsName (body : List Stmt) (id0 : String) : Bool :=
  (stmtListNodes body).any (fun n =>
    match n with
    | .expr (.name id _) => id == id0
    | _ => false)

mutual
/-- Embedding of the `ImportRemover` transformer on one statement:
`visit_Import` filters the alias list, degrading the statement to `pass`
when no alias remains; `visit_ImportFrom` replaces a whole `from
module_name import ...` by `pass`; every other statement is rebuilt by `generic_visit`
over its statement lists. -/
def importRemoverStmt (module_name : String) : Stmt → Stmt
  | .importStmt names =>
      let kept := names.filter (fun a => a.name ≠ module_name)
      if kept.isEmpty then .passStmt else .importStmt kept
  | .importFrom m names lvl =>
      if m = some module_name then .passStmt else .importFrom m names lvl
  | .forStmt t it b o =>
      .forStmt t it (importRemoverList module_name b) (importRemoverList module_name o)
  | .ifStmt t b o => .ifStmt t (importRemoverList module_name b) (importRemoverList module_name o)
  | .functionDef n ps b => .functionDef n ps (importRemoverList module_name b)
  | .classDef n b => .classDef n (importRemoverList module_name b)
  | s => s

/-- `generic_visit` of `ImportRemover` over a statement list. -/
def importRemoverList (module_name : String) : List Stmt → List Stmt
  | [] => []
  | s :: rest => importRemoverStmt module_name s :: importRemoverList module_name rest
end

/-- Embedding of `remove_import(code, module_name)`: an empty module name is
a warned no-op; otherwise the `ImportRemover` transformer runs over the
tree. -/
def remove_import (body : List Stmt) (module_name : String) : List Stmt :=
  if module_name = "" then body else importRemoverList module_name body

mutual
/-- Embedding of the `RemoveLocalImports` transformer on one statement:
`visit_ImportFrom` removes every `from`-import with a non-zero relative
level; every other statement is rebuilt by `generic_visit` over its
statement lists. -/
def removeLocalImportsStmt : Stmt → Option Stmt
  | .importFrom m names lvl => if lvl > 0 then none else some (.importFrom m names lvl)
  | .forStmt t it b o =>
      some (.forStmt t it (removeLocalImportsList b) (removeLocalImportsList o))
  | .ifStmt t b o => some (.ifStmt t (removeLocalImportsList b) (removeLocalImportsList o))
  | .functionDef n ps b => some (.functionDef n ps (removeLocalImportsList b))
  | .classDef n b => some (.classDef n (removeLocalImportsList b))
  | s => some s

/-- `generic_visit` of `RemoveLocalImports` over a statement list: a child
answered with `None` is dropped. -/
def removeLocalImportsList : List Stmt → List Stmt
  | [] => []
  | s :: rest =>
      match removeLocalImportsStmt s with
      | none => removeLocalImportsList rest
      | some s1 => s1 :: removeLocalImportsList rest
end

/-- Embedding of `remove_local_imports(code)`. -/
def remove_local_imports (body : List Stmt) : List Stmt :=
  removeLocalImportsList body

/-- The top-level call statement built by `add_function_call`:
`ast.Expr(ast.Call(ast.Name(function_name), args, keywords=[]))`, each
argument text parsed back to an expression by `arg_value` (a name
reference). -/
def newFunctionCallStmt (function_name : String) (args : List String) : Stmt :=
  .exprStmt (.call (.name function_name .load) (args.map (fun a => .name a .load)) [])

/-- Embedding of the insertion loop of `add_function_call`: the source
iterates `enumerate(tree.body)` and inserts the call statement at index
`i + 1` after every matching top-level `FunctionDef`, breaking after the
first when `multiple` is false. The list is mutated during index-based
iteration, so the freshly inserted `Expr` statement is itself the next
element the iterator examines; it never matches a `FunctionDef`, so the
loop is this recursion over the remaining statements. -/
def insertFunctionCall (function_name : String) (args : List String) (multiple : Bool) :
    List Stmt → List Stmt
  | [] => []
  | .functionDef n ps b :: rest =>
      if n == function_name then
        if multiple then
          .functionDef n ps b :: newFunctionCallStmt function_name args ::
            insertFunctionCall function_name args multiple rest
        else
          .functionDef n ps b :: newFunctionCallStmt function_name args :: rest
      else
        .functionDef n ps b :: insertFunctionCall function_name args multiple rest
  | s :: rest => s :: insertFunctionCall function_name args multiple rest

/-- Embedding of `add_function_call(code, function_call, args, multiple)`
at the point after `extract_function_details` has resolved the hint to a
function name and an argument-text list (for a bare-name hint the resolved
name is the hint itself and the arguments are the given defaults). -/
def add_function_call (body : List Stmt) (function_name : String) (args : List String)
    (multiple : Bool) : List Stmt :=
  insertFunctionCall function_name args multiple body

/-- Is the node a Delete-context name reference — the only node kind at
which any collector of `find_variables` removes something from a set. -/
def isDelNameNode : Node → Bool
  | .expr (.name _ .del) => true
  | _ => false

/-- Does a statement match the resolved function name of
`add_function_call`: a `FunctionDef` carrying exactly that name. -/
def isMatchingDef (function_name : String) : Stmt → Bool
  | .functionDef n _ _ => n == function_name
  | _ => false

/-- Claim C1: for every snippet on which parsing succeeds (every tree) and
every import environment, `find_missing_variables(code)` is exactly the set
difference `used − defined` of the two sets returned by the full collector
`find_variables(code)` with builtins included. -/
theorem find_missing_variables_eq_used_sdiff_defined (env : ImportEnv) (body : List Stmt) :
    find_missing_variables env body =
      (find_variables env body true).1 \ (find_variables env body true).2 := by
  rw [Finset.sdiff_eq_filter]
  rfl

/-- Claim C8: `Empty.__add__` applied to any right-hand value returns that
value, unchanged, whatever its type. -/
theorem Empty_add_returns_right_operand {T : Type _} (e : Empty) (v : T) :
    e.__add__ v = v :=
  rfl

/-- Claim C9: a Delete-context name reference only erases the name from the
assignment/Store-collected `defined_variables` set, so a name made available
by an import statement, a for-loop target or the builtins set is still in
the defined set `find_variables` returns even when the code deletes it:
`import os` followed by `del os` keeps `os` defined, a deleted loop target
stays defined, and a deleted builtin such as `print` stays defined. -/
theorem delete_context_only_erases_assignment_defined
    : (∀ (env : ImportEnv) (st : VarState) (v : String),
        collect_everything env st (.expr (.name v .del)) =
          { st with defined_variables := st.defined_variables.erase v })
    ∧ "os" ∈ (find_variables noImports
        [.importStmt [⟨"os", none⟩], .delete [.name "os" .del]] true).2
    ∧ "i" ∈ (find_variables noImports
        [.forStmt (.name "i" .store) (.name "xs" .load) [.passStmt] [],
         .delete [.name "i" .del]] true).2
    ∧ "print" ∈ (find_variables noImports [.delete [.name "print" .del]] true).2 :=
  ⟨fun _ _ _ => rfl, by decide, by decide, by decide⟩

/-- The two input snippets of claim C5: `import os, sys` and
`from os import path`. -/
def importOsSys : List Stmt := [.importStmt [⟨"os", none⟩, ⟨"sys", none⟩]]

/-- The `from os import path` snippet of claim C5. -/
def fromOsImportPath : List Stmt := [.importFrom (some "os") [⟨"path", none⟩] 0]

/-- Claim C5: `remove_import(code, "os")` on `import os, sys` keeps an
imported binding of `sys` and no longer binds `os`; on `from os import path` the
whole import statement is gone (a bare `pass` remains); and in general a
plain import statement is dropped by the transformer exactly when no alias
survives the filter. -/
theorem remove_import_os_behaviour
    : remove_import importOsSys "os" = [.importStmt [⟨"sys", none⟩]]
    ∧ "sys" ∈ (find_variables noImports (remove_import importOsSys "os") true).2
    ∧ "os" ∉ (find_variables noImports (remove_import importOsSys "os") true).2
    ∧ remove_import fromOsImportPath "os" = [.passStmt]
    ∧ (∀ (module_name : String) (names : List Alias),
        importRemoverStmt module_name (.importStmt names) = .passStmt ↔
          (names.filter (fun a => a.name ≠ module_name)).isEmpty = true) := by
  refine ⟨rfl, by decide, by decide, rfl, ?_⟩
  intro module_name names
  by_cases h : (names.filter (fun a => a.name ≠ module_name)).isEmpty = true
  · simp [importRemoverStmt, h]
  · simp [importRemoverStmt, h]

/-- The input snippet of claim C4: `db = Connect(); db.query(); keep = 1`. -/
def dbSnippet : List Stmt :=
  [ .assign [.name "db" .store] (.call (.name "Connect" .load) [] []),
    .exprStmt (.call (.attribute (.name "db" .load) "query" .load) [] []),
    .assign [.name "keep" .store] (.intConst 1) ]

/-- What `remove_specific_variables` actually leaves of `dbSnippet`: the
assignment to `db` is removed, the expression statement `db.query()` and
the assignment `keep = 1` stay. -/
def dbSnippetRemoved : List Stmt :=
  [ .exprStmt (.call (.attribute (.name "db" .load) "query" .load) [] []),
    .assign [.name "keep" .store] (.intConst 1) ]

/-- Claim C4 is false as stated: the result of removing `{"db"}` from
`db = Connect(); db.query(); keep = 1` still references `db`, because the
expression statement `db.query()` is neither an assignment nor a definition
and the pass leaves it in place. -/
theorem remove_specific_variables_db_query_remains :
    ¬ (∀ result, remove_specific_variables dbSnippet ["db"] = .ok result →
          mentionsName result "db" = false) :=
  fun h => absurd (h dbSnippetRemoved rfl) (by decide)

/-- Claim C4 (amended): removing the names `{"db"}` from
`db = Connect(); db.query(); keep = 1` yields code that contains the
statement `keep = 1` and no reference to `Connect` — the assignment
`db = Connect()` is removed — but the expression statement `db.query()` is
left in place, so the result still references `db`. -/
theorem remove_specific_variables_db_example :
    remove_specific_variables dbSnippet ["db"] = .ok dbSnippetRemoved
    ∧ Stmt.assign [.name "keep" .store] (.intConst 1) ∈ dbSnippetRemoved
    ∧ mentionsName dbSnippetRemoved "Connect" = false
    ∧ mentionsName dbSnippetRemoved "db" = true := by
  refine ⟨rfl, ?_, rfl, rfl⟩
  simp [dbSnippetRemoved]

/-- Claim C10: `remove_specific_variables` removes an assignment statement
only when at least one of its targets is a plain single name in the target
set; an assignment none of whose targets is a targeted plain name — in
particular one whose tuple-unpacking target merely contains a targeted
name — is left in place. -/
theorem assignment_kept_without_plain_name_target
    (to_remove : List String) (targets : List Expr) (value : Expr)
    (h : targets.all (fun t =>
          match t with
          | Expr.name id _ => !(to_remove.contains id)
          | _ => true) = true) :
    remove_specific_variables [.assign targets value] to_remove = .ok [.assign targets value] := by
  have hall := List.all_eq_true.mp h
  have hro : removesOutright to_remove (.assign targets value) = false := by
    rw [removesOutright, List.any_eq_false]
    intro t ht
    have := hall t ht
    cases t <;> simp_all [should_remove]
  simp [remove_specific_variables, processBody, remove_desired_variable_refs, hro]

/-- Witness for claim C10: with target set `{"db"}`, the tuple-unpacking
assignment `db, x = a, b` is left in place. -/
theorem assignment_kept_without_plain_name_target_witness :
    ([Expr.tuple [.name "db" .store, .name "x" .store] .store].all (fun t =>
          match t with
          | Expr.name id _ => !((["db"] : List String).contains id)
          | _ => true) = true)
    ∧ remove_specific_variables
        [.assign [.tuple [.name "db" .store, .name "x" .store] .store]
          (.tuple [.name "a" .load, .name "b" .load] .load)] ["db"] =
      .ok [.assign [.tuple [.name "db" .store, .name "x" .store] .store]
          (.tuple [.name "a" .load, .name "b" .load] .load)] :=
  ⟨rfl, assignment_kept_without_plain_name_target ["db"] _ _ rfl⟩

mutual
/-- A statement the local-import transformer keeps is a fixed point of the
transformer: its kept form no longer contains any relative `from`-import at
any depth. -/
theorem removeLocalImportsStmt_fixed :
    ∀ (s t : Stmt), removeLocalImportsStmt s = some t → removeLocalImportsStmt t = some t
  | .importFrom m names lvl, t, h => by
      by_cases hl : lvl > 0
      · rw [removeLocalImportsStmt, if_pos hl] at h
        cases h
      · rw [removeLocalImportsStmt, if_neg hl] at h
        cases h
        rw [removeLocalImportsStmt, if_neg hl]
  | .forStmt t0 it b o, t, h => by
      cases h
      simp only [removeLocalImportsStmt]
      rw [removeLocalImportsList_idem b, removeLocalImportsList_idem o]
  | .ifStmt t0 b o, t, h => by
      cases h
      simp only [removeLocalImportsStmt]
      rw [removeLocalImportsList_idem b, removeLocalImportsList_idem o]
  | .functionDef n ps b, t, h => by
      cases h
      simp only [removeLocalImportsStmt]
      rw [removeLocalImportsList_idem b]
  | .classDef n b, t, h => by
      cases h
      simp only [removeLocalImportsStmt]
      rw [removeLocalImportsList_idem b]
  | .assign ts v, t, h => by cases h; rfl
  | .annAssign t0 ann v, t, h => by cases h; rfl
  | .exprStmt v, t, h => by cases h; rfl
  | .ret v, t, h => by cases h; rfl
  | .delete ts, t, h => by cases h; rfl
  | .importStmt names, t, h => by cases h; rfl
  | .passStmt, t, h => by cases h; rfl

/-- Applying the local-import list pass twice gives the same list as
applying it once. -/
theorem removeLocalImportsList_idem :
    ∀ (l : List Stmt), removeLocalImportsList (removeLocalImportsList l) = removeLocalImportsList l
  | [] => rfl
  | s :: rest => by
      simp only [removeLocalImportsList]
      cases hs : removeLocalImportsStmt s with
      | none => exact removeLocalImportsList_idem rest
      | some s1 =>
          simp only [removeLocalImportsList]
          rw [removeLocalImportsStmt_fixed s s1 hs]
          rw [removeLocalImportsList_idem rest]
end

/-- Claim C6: `remove_local_imports` is idempotent — applying it twice to
any snippet yields the same result as applying it once. -/
theorem remove_local_imports_idempotent (body : List Stmt) :
    remove_local_imports (remove_local_imports body) = remove_local_imports body :=
  removeLocalImportsList_idem body

/-- The insertion loop of `add_function_call` passes over statements that do
not match the function name unchanged. -/
theorem insertFunctionCall_skip (function_name : String) (args : List String) (multiple : Bool) :
    ∀ (xs rest : List Stmt), xs.all (fun s => !isMatchingDef function_name s) = true →
      insertFunctionCall function_name args multiple (xs ++ rest) =
        xs ++ insertFunctionCall function_name args multiple rest := by
  intro xs
  induction xs with
  | nil => intro rest _; rfl
  | cons s xs ih =>
      intro rest h
      rw [List.all_cons, Bool.and_eq_true] at h
      obtain ⟨h1, h2⟩ := h
      cases s with
      | functionDef n ps b =>
          have hn : (n == function_name) = false := by simpa [isMatchingDef] using h1
          simp only [List.cons_append, insertFunctionCall, List.append_eq, hn, Bool.false_eq_true, if_false]
          rw [ih rest h2]
      | assign ts v => simp only [List.cons_append, insertFunctionCall, List.append_eq]; rw [ih rest h2]
      | annAssign t0 ann v => simp only [List.cons_append, insertFunctionCall, List.append_eq]; rw [ih rest h2]
      | exprStmt v => simp only [List.cons_append, insertFunctionCall, List.append_eq]; rw [ih rest h2]
      | ret v => simp only [List.cons_append, insertFunctionCall, List.append_eq]; rw [ih rest h2]
      | delete ts => simp only [List.cons_append, insertFunctionCall, List.append_eq]; rw [ih rest h2]
      | importStmt names => simp only [List.cons_append, insertFunctionCall, List.append_eq]; rw [ih rest h2]
      | importFrom m names lvl => simp only [List.cons_append, insertFunctionCall, List.append_eq]; rw [ih rest h2]
      | forStmt t0 it b o => simp only [List.cons_append, insertFunctionCall, List.append_eq]; rw [ih rest h2]
      | ifStmt t0 b o => simp only [List.cons_append, insertFunctionCall, List.append_eq]; rw [ih rest h2]
      | classDef n b => simp only [List.cons_append, insertFunctionCall, List.append_eq]; rw [ih rest h2]
      | passStmt => simp only [List.cons_append, insertFunctionCall, List.append_eq]; rw [ih rest h2]

/-- At a matching definition the loop inserts the call statement right after
it, and scans on beyond it exactly when `multiple` is set. -/
theorem insertFunctionCall_match (function_name : String) (args : List String) (multiple : Bool)
    (ps : List String) (b rest : List Stmt) :
    insertFunctionCall function_name args multiple (.functionDef function_name ps b :: rest) =
      .functionDef function_name ps b :: newFunctionCallStmt function_name args ::
        (if multiple then insertFunctionCall function_name args multiple rest else rest) := by
  by_cases hm : multiple <;> simp [insertFunctionCall, hm]

/-- Claim C7: with `multiple=False`, `add_function_call` inserts exactly one
call statement, immediately after the first top-level function definition
carrying the resolved name, even when two top-level functions share that
name; with `multiple=True` it inserts one call statement after every such
matching top-level definition. -/
theorem add_function_call_insertion (function_name : String) (args : List String)
    (pre mid post : List Stmt) (ps1 ps2 : List String) (b1 b2 : List Stmt)
    (hpre : pre.all (fun s => !isMatchingDef function_name s) = true)
    (hmid : mid.all (fun s => !isMatchingDef function_name s) = true)
    (hpost : post.all (fun s => !isMatchingDef function_name s) = true) :
    add_function_call
        (pre ++ Stmt.functionDef function_name ps1 b1 :: (mid ++ Stmt.functionDef function_name ps2 b2 :: post))
        function_name args false =
      pre ++ Stmt.functionDef function_name ps1 b1 :: newFunctionCallStmt function_name args ::
        (mid ++ Stmt.functionDef function_name ps2 b2 :: post)
    ∧ add_function_call
        (pre ++ Stmt.functionDef function_name ps1 b1 :: (mid ++ Stmt.functionDef function_name ps2 b2 :: post))
        function_name args true =
      pre ++ Stmt.functionDef function_name ps1 b1 :: newFunctionCallStmt function_name args ::
        (mid ++ Stmt.functionDef function_name ps2 b2 :: newFunctionCallStmt function_name args :: post) := by
  have hpost_fix : insertFunctionCall function_name args true post = post := by
    have := insertFunctionCall_skip function_name args true post [] hpost
    simpa [insertFunctionCall] using this
  constructor
  · rw [add_function_call, insertFunctionCall_skip function_name args false pre _ hpre,
      insertFunctionCall_match]
    simp
  · rw [add_function_call, insertFunctionCall_skip function_name args true pre _ hpre,
      insertFunctionCall_match]
    simp only [if_true]
    rw [insertFunctionCall_skip function_name args true mid _ hmid, insertFunctionCall_match]
    simp [hpost_fix]

/-- Witness for claim C7: two top-level definitions of `main` with a
trailing statement between and after them. -/
theorem add_function_call_insertion_witness :
    (([] : List Stmt).all (fun s => !isMatchingDef "main" s) = true
      ∧ [Stmt.passStmt].all (fun s => !isMatchingDef "main" s) = true
      ∧ [Stmt.exprStmt (.strConst "end")].all (fun s => !isMatchingDef "main" s) = true)
    ∧ (add_function_call
          ([] ++ Stmt.functionDef "main" ["arg"] [.passStmt] ::
            ([Stmt.passStmt] ++ Stmt.functionDef "main" ["arg"] [.passStmt] :: [Stmt.exprStmt (.strConst "end")]))
          "main" ["World"] false =
        [] ++ Stmt.functionDef "main" ["arg"] [.passStmt] :: newFunctionCallStmt "main" ["World"] ::
          ([Stmt.passStmt] ++ Stmt.functionDef "main" ["arg"] [.passStmt] :: [Stmt.exprStmt (.strConst "end")])
      ∧ add_function_call
          ([] ++ Stmt.functionDef "main" ["arg"] [.passStmt] ::
            ([Stmt.passStmt] ++ Stmt.functionDef "main" ["arg"] [.passStmt] :: [Stmt.exprStmt (.strConst "end")]))
          "main" ["World"] true =
        [] ++ Stmt.functionDef "main" ["arg"] [.passStmt] :: newFunctionCallStmt "main" ["World"] ::
          ([Stmt.passStmt] ++ Stmt.functionDef "main" ["arg"] [.passStmt] ::
            newFunctionCallStmt "main" ["World"] :: [Stmt.exprStmt (.strConst "end")])) :=
  ⟨⟨rfl, rfl, rfl⟩,
    add_function_call_insertion "main" ["World"] [] [Stmt.passStmt] [Stmt.exprStmt (.strConst "end")]
      ["arg"] ["arg"] [.passStmt] [.passStmt] rfl rfl rfl⟩

mutual
/-- The accumulated set only grows along `handle_elts`. -/
theorem subset_handle_elts : ∀ (elts : List Expr) (a : Finset String), a ⊆ handle_elts elts a
  | [], a => Finset.Subset.refl a
  | e :: rest, a =>
      Finset.Subset.trans (subset_handleElt e a) (subset_handle_elts rest (handleElt e a))

/-- The accumulated set only grows along one `handle_elts` element. -/
theorem subset_handleElt : ∀ (e : Expr) (a : Finset String), a ⊆ handleElt e a
  | .subscript (.tuple elts _) _ _, a => subset_handle_elts elts a
  | .subscript (.name id _) _ _, a => Finset.subset_insert id a
  | .subscript (.intConst _) _ _, a => Finset.Subset.refl a
  | .subscript (.strConst _) _ _, a => Finset.Subset.refl a
  | .subscript (.boolConst _) _ _, a => Finset.Subset.refl a
  | .subscript (.subscript _ _ _) _ _, a => Finset.Subset.refl a
  | .subscript (.attribute _ _ _) _ _, a => Finset.Subset.refl a
  | .subscript (.call _ _ _) _ _, a => Finset.Subset.refl a
  | .subscript (.yieldExpr _) _ _, a => Finset.Subset.refl a
  | .tuple elts _, a => subset_handle_elts elts a
  | .name id _, a => Finset.subset_insert id a
  | .intConst _, a => Finset.Subset.refl a
  | .strConst _, a => Finset.Subset.refl a
  | .boolConst _, a => Finset.Subset.refl a
  | .attribute _ _ _, a => Finset.Subset.refl a
  | .call _ _ _, a => Finset.Subset.refl a
  | .yieldExpr _, a => Finset.Subset.refl a
end

mutual
/-- `handle_elts` is monotone in its accumulated set. -/
theorem handle_elts_mono : ∀ (elts : List Expr) (a b : Finset String),
    a ⊆ b → handle_elts elts a ⊆ handle_elts elts b
  | [], _, _, h => h
  | e :: rest, a, b, h => handle_elts_mono rest _ _ (handleElt_mono e a b h)

/-- One `handle_elts` element is monotone in the accumulated set. -/
theorem handleElt_mono : ∀ (e : Expr) (a b : Finset String), a ⊆ b → handleElt e a ⊆ handleElt e b
  | .subscript (.tuple elts _) _ _, a, b, h => handle_elts_mono elts a b h
  | .subscript (.name id _) _ _, _, _, h => Finset.insert_subset_insert id h
  | .subscript (.intConst _) _ _, _, _, h => h
  | .subscript (.strConst _) _ _, _, _, h => h
  | .subscript (.boolConst _) _ _, _, _, h => h
  | .subscript (.subscript _ _ _) _ _, _, _, h => h
  | .subscript (.attribute _ _ _) _ _, _, _, h => h
  | .subscript (.call _ _ _) _ _, _, _, h => h
  | .subscript (.yieldExpr _) _ _, _, _, h => h
  | .tuple elts _, a, b, h => handle_elts_mono elts a b h
  | .name id _, _, _, h => Finset.insert_subset_insert id h
  | .intConst _, _, _, h => h
  | .strConst _, _, _, h => h
  | .boolConst _, _, _, h => h
  | .attribute _ _ _, _, _, h => h
  | .call _ _ _, _, _, h => h
  | .yieldExpr _, _, _, h => h
end

/-- `collect_imports` never changes the assignment-defined set. -/
theorem collect_imports_defined (env : ImportEnv) (st : VarState) (n : Node) :
    (collect_imports env st n).defined_variables = st.defined_variables := by
  cases n with
  | expr e => rfl
  | stmt s =>
      cases s
      case importFrom m names lvl =>
        cases m with
        | none => rfl
        | some mn =>
            cases henv : env mn with
            | none => simp [collect_imports, henv]
            | some dirNames =>
                cases names with
                | nil => simp [collect_imports, henv]
                | cons a rest =>
                    by_cases ha : a.name = "*" <;> simp [collect_imports, henv, ha]
      all_goals rfl

/-- `collect_imported_names` never changes the assignment-defined set. -/
theorem collect_imported_names_defined (st : VarState) (n : Node) :
    (collect_imported_names st n).defined_variables = st.defined_variables := by
  cases n with
  | expr e => rfl
  | stmt s =>
      cases s
      case importFrom m names lvl => cases m <;> rfl
      all_goals rfl

/-- `collect_loop_variables` never changes the assignment-defined set. -/
theorem collect_loop_variables_defined (st : VarState) (n : Node) :
    (collect_loop_variables st n).defined_variables = st.defined_variables := by
  cases n with
  | expr e => rfl
  | stmt s =>
      cases s
      case forStmt t it b o => cases t <;> rfl
      all_goals rfl

/-- Outside a Delete-context name node, `collect_variables` never shrinks
the assignment-defined set. -/
theorem collect_variables_defined_mono (st : VarState) (n : Node)
    (h : isDelNameNode n = false) :
    st.defined_variables ⊆ (collect_variables st n).defined_variables := by
  cases n with
  | stmt s => exact Finset.Subset.refl _
  | expr e =>
      cases e
      case name id c =>
        cases c with
        | load => exact Finset.Subset.refl _
        | store => exact Finset.subset_insert id _
        | del => simp [isDelNameNode] at h
      all_goals exact Finset.Subset.refl _

/-- `collect_definitions` never shrinks the assignment-defined set. -/
theorem collect_definitions_defined_mono (st : VarState) (n : Node) :
    st.defined_variables ⊆ (collect_definitions st n).defined_variables := by
  cases n with
  | expr e => exact Finset.Subset.refl _
  | stmt s =>
      cases s
      case assign ts v => exact subset_handle_elts ts _
      case annAssign t ann v => exact subset_handle_elts [t] _
      all_goals exact Finset.Subset.refl _

/-- Outside a Delete-context name node, `collect_everything` never shrinks
the assignment-defined set. -/
theorem collect_everything_defined_mono (env : ImportEnv) (st : VarState) (n : Node)
    (h : isDelNameNode n = false) :
    st.defined_variables ⊆ (collect_everything env st n).defined_variables := by
  unfold collect_everything
  rw [collect_loop_variables_defined, collect_imports_defined, collect_imported_names_defined]
  exact Finset.Subset.trans (collect_variables_defined_mono st n h)
    (collect_definitions_defined_mono _ n)

/-- Over a delete-free node sequence, the assignment-defined set of the
collector state only grows. -/
theorem foldl_collect_defined_mono (env : ImportEnv) :
    ∀ (l : List Node) (st : VarState), l.all (fun n => !isDelNameNode n) = true →
      st.defined_variables ⊆ (l.foldl (collect_everything env) st).defined_variables
  | [], _, _ => Finset.Subset.refl _
  | n :: rest, st, h => by
      rw [List.all_cons, Bool.and_eq_true] at h
      have h1 : isDelNameNode n = false := by simpa using h.1
      exact Finset.Subset.trans (collect_everything_defined_mono env st n h1)
        (foldl_collect_defined_mono env rest _ h.2)

/-- One lockstep visit: at a delete-free node, whatever the narrow collector
of `find_defined_variables` has gathered stays below the full collector's
assignment-defined set. -/
theorem collect_definitions_only_le_everything (env : ImportEnv) (n : Node) (acc : Finset String)
    (st : VarState) (h : isDelNameNode n = false) (hsub : acc ⊆ st.defined_variables) :
    collect_definitions_only acc n ⊆ (collect_everything env st n).defined_variables := by
  unfold collect_everything
  rw [collect_loop_variables_defined, collect_imports_defined, collect_imported_names_defined]
  cases n with
  | stmt s =>
      cases s
      case assign ts v => exact handle_elts_mono ts _ _ hsub
      case annAssign t ann v => exact handle_elts_mono [t] _ _ hsub
      all_goals exact hsub
  | expr e =>
      cases e
      case name id c =>
        cases c with
        | load => exact hsub
        | store => exact Finset.Subset.trans hsub (Finset.subset_insert id _)
        | del => simp [isDelNameNode] at h
      all_goals exact hsub

/-- Lockstep fold: over a delete-free node sequence, the narrow collector's
set stays below the full collector's assignment-defined set. -/
theorem foldl_definitions_only_le (env : ImportEnv) :
    ∀ (l : List Node) (acc : Finset String) (st : VarState),
      l.all (fun n => !isDelNameNode n) = true → acc ⊆ st.defined_variables →
      l.foldl collect_definitions_only acc ⊆
        (l.foldl (collect_everything env) st).defined_variables
  | [], _, _, _, hsub => hsub
  | n :: rest, acc, st, h, hsub => by
      rw [List.all_cons, Bool.and_eq_true] at h
      have h1 : isDelNameNode n = false := by simpa using h.1
      exact foldl_definitions_only_le env rest _ _ h.2
        (collect_definitions_only_le_everything env n acc st h1 hsub)

/-- Claim C2 is false as stated: for `x = 1` followed by `del x`, the narrow
pass `find_defined_variables` returns `{x}` while the defined set of the
full pass `find_variables` no longer contains `x` — the Delete-context
reference erased it. -/
theorem find_defined_not_subset_full :
    ¬ (find_defined_variables [.assign [.name "x" .store] (.intConst 1), .delete [.name "x" .del]]
        ⊆ (find_variables noImports
            [.assign [.name "x" .store] (.intConst 1), .delete [.name "x" .del]] true).2) := by
  decide

/-- Claim C2 (amended): for every syntactically valid snippet containing no
Delete-context name reference, the set returned by `find_defined_variables`
is a subset of the defined set returned by `find_variables`. -/
theorem find_defined_subset_full_defined (env : ImportEnv) (body : List Stmt)
    (h : (stmtListNodes body).all (fun n => !isDelNameNode n) = true) :
    find_defined_variables body ⊆ (find_variables env body true).2 := by
  intro x hx
  have hx2 : x ∈ (traverse_ast (collect_everything env) initialVarState body).defined_variables :=
    foldl_definitions_only_le env (stmtListNodes body) ∅ initialVarState h
      (Finset.empty_subset _) hx
  exact Finset.mem_union_left _ (Finset.mem_union_left _ (Finset.mem_union_left _
    (Finset.mem_union_left _ hx2)))

/-- Witness for the amended claim C2: the delete-free snippet `y = 1`. -/
theorem find_defined_subset_full_defined_witness :
    ((stmtListNodes [Stmt.assign [.name "y" .store] (.intConst 1)]).all
        (fun n => !isDelNameNode n) = true)
    ∧ find_defined_variables [Stmt.assign [.name "y" .store] (.intConst 1)]
        ⊆ (find_variables noImports [Stmt.assign [.name "y" .store] (.intConst 1)] true).2 :=
  ⟨by decide, find_defined_subset_full_defined noImports _ (by decide)⟩

/-- The pre-order node sequence distributes over statement-list append. -/
theorem stmtListNodes_append : ∀ (xs ys : List Stmt),
    stmtListNodes (xs ++ ys) = stmtListNodes xs ++ stmtListNodes ys
  | [], _ => rfl
  | s :: xs, ys => by
      show stmtNodes s ++ stmtListNodes (xs ++ ys) =
        (stmtNodes s ++ stmtListNodes xs) ++ stmtListNodes ys
      rw [stmtListNodes_append xs ys, List.append_assoc]

/-- The node sequence of the binding assignments emitted by
`generate_magic_code` contains no Delete-context name reference. -/
theorem magic_assign_nodes_no_del : ∀ (S : List String),
    (stmtListNodes (S.map (fun v => Stmt.assign [.name v .store] (.name "empty" .load)))).all
      (fun n => !isDelNameNode n) = true
  | [] => rfl
  | v :: S => by
      have ih := magic_assign_nodes_no_del S
      show (stmtNodes (Stmt.assign [.name v .store] (.name "empty" .load)) ++
          stmtListNodes (S.map (fun v => Stmt.assign [.name v .store] (.name "empty" .load)))).all
            (fun n => !isDelNameNode n) = true
      rw [List.all_append, ih, Bool.and_true]
      rfl

/-- After folding the collector over the binding assignments of
`generate_magic_code`, every name of the list is in the assignment-defined
set, whatever state the fold starts from. -/
theorem magic_assigns_define (env : ImportEnv) :
    ∀ (S : List String) (st : VarState) (s : String), s ∈ S →
      s ∈ ((stmtListNodes (S.map (fun v => Stmt.assign [.name v .store] (.name "empty" .load)))).foldl
            (collect_everything env) st).defined_variables
  | [], _, s, hs => absurd hs (List.not_mem_nil s)
  | v :: S, st, s, hs => by
      show s ∈ ((stmtNodes (Stmt.assign [.name v .store] (.name "empty" .load)) ++
          stmtListNodes (S.map (fun v => Stmt.assign [.name v .store] (.name "empty" .load)))).foldl
            (collect_everything env) st).defined_variables
      rw [List.foldl_append]
      rcases List.mem_cons.mp hs with rfl | hs2
      · apply Finset.mem_of_subset (foldl_collect_defined_mono env _ _ (magic_assign_nodes_no_del S))
        exact Finset.mem_insert_self s _
      · exact magic_assigns_define env S _ s hs2

/-- Claim C3: for every set `S` of names and every original snippet, running
`find_missing_variables` on the concatenation of the snippet with
`generate_magic_code(S)` yields a set containing no name of `S` — the
emitted fragment binds every name of `S` by a trailing assignment, and
nothing after it deletes them. -/
theorem magic_code_resolves_missing (env : ImportEnv) (orig : List Stmt) (S : List String)
    (s : String) (hs : s ∈ S) :
    s ∉ find_missing_variables env (orig ++ generate_magic_code S) := by
  have hdef : s ∈ (traverse_ast (collect_everything env) initialVarState
      (orig ++ generate_magic_code S)).defined_variables := by
    unfold traverse_ast
    rw [stmtListNodes_append, List.foldl_append,
      show stmtListNodes (generate_magic_code S) =
          stmtListNodes magicPrelude ++
            stmtListNodes (S.map (fun v => Stmt.assign [.name v .store] (.name "empty" .load)))
        from stmtListNodes_append magicPrelude _,
      List.foldl_append]
    exact magic_assigns_define env S _ s hs
  intro hmem
  unfold find_missing_variables at hmem
  simp only [Finset.mem_filter] at hmem
  exact hmem.2 (Finset.mem_union_left _ (Finset.mem_union_left _ (Finset.mem_union_left _
    (Finset.mem_union_left _ hdef))))

/-- Witness for claim C3: the snippet `bla` with `S = {"bla"}`. -/
theorem magic_code_resolves_missing_witness :
    "bla" ∈ ["bla"]
    ∧ "bla" ∉ find_missing_variables noImports
        ([Stmt.exprStmt (.name "bla" .load)] ++ generate_magic_code ["bla"]) :=
  ⟨by decide,
    magic_code_resolves_missing noImports [Stmt.exprStmt (.name "bla" .load)] ["bla"] "bla"
      (by decide)⟩

end Witchery
